/-
Verification of the noisy_float crate (src/lib.rs) against its
natural-language specification.

The repository ships `lib.rs` together with the modules `checkers`,
`float_impl` and `types`, of which only `lib.rs` is available here.
Definitions taken from `lib.rs` are embedded directly; the parts that live
in the missing modules (the two concrete checker policies, the Ord/Hash
and arithmetic-operator implementations) and the external collaborators
(native IEEE floats, the rand crate's uniform sampler) are modelled from
the specification, each marked `Modelled from the spec:` in its doc
comment.

Native floats are modelled by the type `Fl`: finite values carry an exact
rational payload (IEEE rounding is out of scope per the spec, which takes
native float arithmetic "as given"), and the special values -0.0, +inf,
-inf and NaN are separate constructors, so IEEE equality/ordering rules
for them can be stated faithfully.
-/

import Mathlib

namespace NoisyFloatSpec

/-- Modelled from the spec: the native floating point domain (an external
collaborator, "IEEE 754, assumed as given").  Finite nonzero values and
+0.0 are `finite q` with an exact rational payload; -0.0, the infinities
and NaN are their own constructors. -/
inductive Fl where
  | finite : ℚ → Fl
  | negZero : Fl
  | posInf : Fl
  | negInf : Fl
  | nan : Fl
deriving DecidableEq, Repr

namespace Fl

/-- Modelled from the spec: NaN test on a native float. -/
def isNan : Fl → Bool
  | nan => true
  | _ => false

/-- Modelled from the spec: finiteness test on a native float
(-0.0 is finite; infinities and NaN are not). -/
def isFinite : Fl → Bool
  | finite _ => true
  | negZero => true
  | _ => false

/-- Rational magnitude of a finite value (0 for -0.0). -/
def toQ : Fl → ℚ
  | finite q => q
  | _ => 0

/-- Modelled from the spec: IEEE equality (`==`) on native floats.
NaN is unequal to everything; +0.0 and -0.0 are equal. -/
def feq : Fl → Fl → Bool
  | finite a, finite b => a == b
  | finite a, negZero => a == 0
  | negZero, finite b => b == 0
  | negZero, negZero => true
  | posInf, posInf => true
  | negInf, negInf => true
  | _, _ => false

/-- Modelled from the spec: IEEE `<=` on native floats.  Any comparison
involving NaN is false; -inf is least, +inf is greatest, +0.0 and -0.0
compare equal. -/
def fle : Fl → Fl → Bool
  | nan, _ => false
  | _, nan => false
  | negInf, _ => true
  | _, negInf => false
  | _, posInf => true
  | posInf, _ => false
  | finite a, finite b => a ≤ b
  | finite a, negZero => a ≤ 0
  | negZero, finite b => 0 ≤ b
  | negZero, negZero => true

/-- Modelled from the spec: IEEE `<` on native floats. -/
def flt : Fl → Fl → Bool
  | nan, _ => false
  | _, nan => false
  | negInf, negInf => false
  | negInf, _ => true
  | _, negInf => false
  | posInf, _ => false
  | _, posInf => true
  | finite a, finite b => a < b
  | finite a, negZero => a < 0
  | negZero, finite b => 0 < b
  | negZero, negZero => false

/-- Sign bit of a native float (true = negative); used for the IEEE
signed-zero rules of multiplication and division. -/
def signBit : Fl → Bool
  | finite q => q < 0
  | negZero => true
  | negInf => true
  | _ => false

/-- Modelled from the spec: IEEE addition, exact on finite values. -/
def add : Fl → Fl → Fl
  | nan, _ => nan
  | _, nan => nan
  | posInf, negInf => nan
  | negInf, posInf => nan
  | posInf, _ => posInf
  | _, posInf => posInf
  | negInf, _ => negInf
  | _, negInf => negInf
  | negZero, negZero => negZero
  | a, b => finite (a.toQ + b.toQ)

/-- Modelled from the spec: IEEE negation. -/
def neg : Fl → Fl
  | nan => nan
  | posInf => negInf
  | negInf => posInf
  | negZero => finite 0
  | finite q => if q = 0 then negZero else finite (-q)

/-- Modelled from the spec: IEEE subtraction, `a - b = a + (-b)`. -/
def sub (a b : Fl) : Fl := add a (neg b)

/-- Modelled from the spec: IEEE multiplication, exact on finite values;
`inf * 0 = NaN`, result zeros and infinities carry the XOR of the signs. -/
def mul : Fl → Fl → Fl
  | nan, _ => nan
  | _, nan => nan
  | posInf, b => if b.isFinite && b.toQ = 0 then nan else if b.signBit then negInf else posInf
  | negInf, b => if b.isFinite && b.toQ = 0 then nan else if b.signBit then posInf else negInf
  | a, posInf => if a.isFinite && a.toQ = 0 then nan else if a.signBit then negInf else posInf
  | a, negInf => if a.isFinite && a.toQ = 0 then nan else if a.signBit then posInf else negInf
  | a, b =>
    if a.toQ * b.toQ = 0 then
      if a.signBit == b.signBit then finite 0 else negZero
    else finite (a.toQ * b.toQ)

/-- Truncation of a rational toward zero (the rounding used by the
native remainder operation). -/
def qtrunc (q : ℚ) : ℚ := if 0 ≤ q then (⌊q⌋ : ℚ) else (⌈q⌉ : ℚ)

/-- Modelled from the spec: IEEE division, exact on finite values;
`0/0`, `inf/inf` are NaN, `x/0 = ±inf` for nonzero finite `x`,
`x/inf = ±0`. -/
def div : Fl → Fl → Fl
  | nan, _ => nan
  | _, nan => nan
  | posInf, b => if b.isFinite then (if b.signBit then negInf else posInf) else nan
  | negInf, b => if b.isFinite then (if b.signBit then posInf else negInf) else nan
  | a, posInf => if a.signBit then negZero else finite 0
  | a, negInf => if a.signBit then finite 0 else negZero
  | a, b =>
    if b.toQ = 0 then
      if a.toQ = 0 then nan
      else if a.signBit == b.signBit then posInf else negInf
    else if a.toQ / b.toQ = 0 then
      if a.signBit == b.signBit then finite 0 else negZero
    else finite (a.toQ / b.toQ)

/-- Modelled from the spec: the native `%` operation (truncated
remainder, as in Rust): `a % b = a - b * trunc(a/b)`; NaN when the
dividend is infinite or the divisor is zero; a zero result keeps the
dividend's sign. -/
def rem : Fl → Fl → Fl
  | nan, _ => nan
  | _, nan => nan
  | posInf, _ => nan
  | negInf, _ => nan
  | a, posInf => a
  | a, negInf => a
  | a, b =>
    if b.toQ = 0 then nan
    else
      let r := a.toQ - b.toQ * qtrunc (a.toQ / b.toQ)
      if r = 0 then (if a.signBit then negZero else finite 0) else finite r

end Fl

/-- The `FloatChecker` trait of `lib.rs` (lines 122-134): a policy is a
validity predicate `check` together with an enforcement mode.  The trait
documentation makes one hard requirement of every implementation — NaN
must be invalid — carried here as the proof field `nan_invalid`.  The
`assert` method is either `assert!` (always enforced) or `debug_assert!`
(enforced only in debug configurations), recorded by `debug_only`. -/
structure FloatChecker where
  check : Fl → Bool
  nan_invalid : check Fl.nan = false
  debug_only : Bool

/-- Whether the checker's `assert` method panics on `v` when the build
configuration has `debug` assertions active: `assert!` fires on any
invalid value, `debug_assert!` only when `debug` is true. -/
def FloatChecker.assert_fires (C : FloatChecker) (debug : Bool) (v : Fl) : Bool :=
  !C.check v && (!C.debug_only || debug)

/-- Modelled from the spec: the `FiniteOnly` policy (the crate's
`checkers` module is not in src/): valid iff not NaN and not infinite,
always-enforced (`assert!`). -/
def FiniteOnly : FloatChecker where
  check := Fl.isFinite
  nan_invalid := rfl
  debug_only := false

/-- Modelled from the spec: the `NonNaNOnly` policy (the crate's
`checkers` module is not in src/): valid iff not NaN (infinities
allowed), debug-only-enforced (`debug_assert!`). -/
def NonNaNOnly : FloatChecker where
  check := fun v => !v.isNan
  nan_invalid := rfl
  debug_only := true

/-- The `NoisyFloat` struct of `lib.rs` (lines 150-154): a native float
tagged by its checker (the `PhantomData` marker has no runtime content,
so only the value field remains). -/
structure NoisyFloat (C : FloatChecker) where
  value : Fl
deriving DecidableEq, Repr

namespace NoisyFloat

variable {C : FloatChecker}

/-- `NoisyFloat::new` (`lib.rs` lines 160-164): asserts validity via the
checker, then wraps.  The panic condition of the assert is modelled
separately by `FloatChecker.assert_fires`. -/
def new (C : FloatChecker) (value : Fl) : NoisyFloat C :=
  ⟨value⟩

/-- `NoisyFloat::try_new` (`lib.rs` lines 177-187): wraps iff the checker
accepts the value, with no assert on any path. -/
def try_new (C : FloatChecker) (value : Fl) : Option (NoisyFloat C) :=
  if C.check value then some ⟨value⟩ else none

/-- `NoisyFloat::try_borrowed` (`lib.rs` lines 208-215): checks, then
reinterprets the reference in place; in the model the referenced float is
passed by value. -/
def try_borrowed (C : FloatChecker) (value : Fl) : Option (NoisyFloat C) :=
  if C.check value then some ⟨value⟩ else none

/-- `NoisyFloat::try_borrowed_mut` (`lib.rs` lines 236-243): checks, then
reinterprets the mutable reference in place. -/
def try_borrowed_mut (C : FloatChecker) (value : Fl) : Option (NoisyFloat C) :=
  if C.check value then some ⟨value⟩ else none

/-- `NoisyFloat::raw` (`lib.rs` lines 267-269): returns the underlying
float value, with no check. -/
def raw (a : NoisyFloat C) : Fl := a.value

/-- Modelled from the spec: the `Ord` implementation (the crate's
`float_impl` module is not in src/): ordering identical to native float
comparison on the contained values, total because NaN is excluded. -/
def le (a b : NoisyFloat C) : Bool := Fl.fle a.value b.value

/-- `NoisyFloat::min` (`lib.rs` lines 275-277): delegates to
`Ord::min`, whose contract returns the first argument on ties. -/
def min (a b : NoisyFloat C) : NoisyFloat C :=
  if Fl.fle a.value b.value then a else b

/-- `NoisyFloat::max` (`lib.rs` lines 283-285): delegates to
`Ord::max`, whose contract returns the second argument on ties. -/
def max (a b : NoisyFloat C) : NoisyFloat C :=
  if Fl.fle a.value b.value then b else a

/-- Modelled from the spec: the `PartialEq`/`Eq` implementation (the
crate's `float_impl` module is not in src/): native float equality on the
contained values. -/
def eq (a b : NoisyFloat C) : Bool := Fl.feq a.value b.value

/-- Modelled from the spec: the `Add` implementation (the crate's
`float_impl` module is not in src/): native addition on the unwrapped
values, re-wrapped through the enforcement path `new`. -/
def add (a b : NoisyFloat C) : NoisyFloat C := new C (Fl.add a.value b.value)

/-- Modelled from the spec: the `Sub` implementation. -/
def sub (a b : NoisyFloat C) : NoisyFloat C := new C (Fl.sub a.value b.value)

/-- Modelled from the spec: the `Mul` implementation. -/
def mul (a b : NoisyFloat C) : NoisyFloat C := new C (Fl.mul a.value b.value)

/-- Modelled from the spec: the `Div` implementation. -/
def div (a b : NoisyFloat C) : NoisyFloat C := new C (Fl.div a.value b.value)

/-- Modelled from the spec: the `Rem` implementation. -/
def rem (a b : NoisyFloat C) : NoisyFloat C := new C (Fl.rem a.value b.value)

/-- Modelled from the spec: the `Neg` implementation. -/
def neg (a : NoisyFloat C) : NoisyFloat C := new C (Fl.neg a.value)

/-- Modelled from the spec: the compound-assignment forms
(`AddAssign` etc.) perform the same operation as the binary operator and
store the result; `a %= b` leaves `a` holding `a % b`. -/
def remAssign (a b : NoisyFloat C) : NoisyFloat C := rem a b

/-- Normalization of -0.0 to +0.0's bit pattern, applied before hashing. -/
def normZero : Fl → Fl
  | Fl.negZero => Fl.finite 0
  | v => v

/-- Modelled from the spec: the `Hash` implementation (the crate's
`float_impl` module is not in src/): normalizes -0.0 to +0.0 and then
hashes the raw bit representation.  On valid (non-NaN) values the bit
pattern determines the value and vice versa, so the hashed representation
is modelled by the normalized value itself. -/
def hashRepr (a : NoisyFloat C) : Fl := normZero a.value

/-- `Serialize for NoisyFloat` (`lib.rs` lines 323-328): serializes
exactly the raw contained value, with no wrapper metadata. -/
def serialize (a : NoisyFloat C) : Fl := a.value

/-- `Deserialize for NoisyFloat` (`lib.rs` lines 330-336): reads a raw
value and passes it through the enforced constructor `new`. -/
def deserialize (C : FloatChecker) (v : Fl) : NoisyFloat C :=
  new C v

end NoisyFloat

/-- Modelled from the spec: the rand crate's `UniformFloat` native
sampler (an external collaborator).  It is constructed over finite native
bounds (its own contract excludes non-finite bounds) and, for a unit
choice `u` drawn from `[0, 1)`, produces `low + (high - low) * u`. -/
structure UniformFloat where
  low : Fl
  high : Fl

/-- Modelled from the spec: construction of the native uniform sampler
over the given bounds. -/
def UniformFloat.new (low high : Fl) : UniformFloat := ⟨low, high⟩

/-- Modelled from the spec: one draw from the native uniform sampler,
driven by a unit choice `u` in `[0, 1)`. -/
def UniformFloat.sample (s : UniformFloat) (u : ℚ) : Fl :=
  Fl.add s.low (Fl.mul (Fl.sub s.high s.low) (Fl.finite u))

/-- `UniformMyF32` (`lib.rs` lines 376-377): the f32 sampler adapter,
wrapping a native `UniformFloat` (the `PhantomData` marker is dropped). -/
structure UniformMyF32 (C : FloatChecker) where
  uf : UniformFloat

namespace UniformMyF32

variable {C : FloatChecker}

/-- `UniformSampler::new` for `UniformMyF32` (`lib.rs` lines 381-386):
builds the native sampler over the unwrapped bounds. -/
def new (low high : NoisyFloat C) : UniformMyF32 C :=
  ⟨UniformFloat.new low.value high.value⟩

/-- `UniformSampler::new_inclusive` for `UniformMyF32` (`lib.rs` lines
387-392): delegates to `UniformSampler::new`. -/
def new_inclusive (low high : NoisyFloat C) : UniformMyF32 C :=
  new low high

/-- `UniformSampler::sample` for `UniformMyF32` (`lib.rs` lines 393-395):
wraps the native sample directly, with no re-validation. -/
def sample (s : UniformMyF32 C) (u : ℚ) : NoisyFloat C :=
  ⟨s.uf.sample u⟩

end UniformMyF32

/-- `UniformMyF64` (`lib.rs` lines 402-403): the f64 sampler adapter. -/
structure UniformMyF64 (C : FloatChecker) where
  uf : UniformFloat

namespace UniformMyF64

variable {C : FloatChecker}

/-- `UniformSampler::new` for `UniformMyF64` (`lib.rs` lines 407-412). -/
def new (low high : NoisyFloat C) : UniformMyF64 C :=
  ⟨UniformFloat.new low.value high.value⟩

/-- `UniformSampler::new_inclusive` for `UniformMyF64` (`lib.rs` lines
413-418): delegates to `UniformSampler::new`. -/
def new_inclusive (low high : NoisyFloat C) : UniformMyF64 C :=
  new low high

/-- `UniformSampler::sample` for `UniformMyF64` (`lib.rs` lines 419-421):
wraps the native sample directly, with no re-validation. -/
def sample (s : UniformMyF64 C) (u : ℚ) : NoisyFloat C :=
  ⟨s.uf.sample u⟩

end UniformMyF64

/-! Helper lemmas shared by the claim theorems. -/

/-- A value accepted by a conforming checker is not NaN. -/
theorem FloatChecker.check_not_nan (C : FloatChecker) {v : Fl}
    (h : C.check v = true) : v.isNan = false := by
  cases v <;> simp [Fl.isNan]
  rw [C.nan_invalid] at h
  exact Bool.noConfusion h

/-- Native `<=` is reflexive away from NaN. -/
theorem Fl.fle_refl (v : Fl) (h : v.isNan = false) : Fl.fle v v = true := by
  cases v <;> simp_all [Fl.fle, Fl.isNan]

/-- Native `<=` is total away from NaN. -/
theorem Fl.fle_total (a b : Fl) (ha : a.isNan = false) (hb : b.isNan = false) :
    Fl.fle a b = true ∨ Fl.fle b a = true := by
  cases a <;> cases b <;> simp_all [Fl.fle, Fl.isNan] <;> exact le_total _ _

/-- Native `<=` is transitive. -/
theorem Fl.fle_trans (a b c : Fl) (h1 : Fl.fle a b = true) (h2 : Fl.fle b c = true) :
    Fl.fle a c = true := by
  cases a <;> cases b <;> cases c <;> simp_all [Fl.fle] <;> linarith

/-- Native `<=` is antisymmetric up to native equality. -/
theorem Fl.fle_antisymm (a b : Fl) (h1 : Fl.fle a b = true) (h2 : Fl.fle b a = true) :
    Fl.feq a b = true := by
  cases a <;> cases b <;> simp_all [Fl.fle, Fl.feq] <;> linarith

/-- Natively equal values are related by native `<=`. -/
theorem Fl.feq_fle (a b : Fl) (h : Fl.feq a b = true) : Fl.fle a b = true := by
  cases a <;> cases b <;> simp_all [Fl.fle, Fl.feq]

/-! Theorems for the claims. -/

/-- Claim C1: for every finite (hence non-NaN) native value `v`, both
shipped checkers accept `v`, so `new(v)` succeeds — the checker's assert
does not fire in any build configuration — and `raw(new(v))` returns
exactly the stored value, for any checker, with no further check. -/
theorem new_raw_roundtrip (v : Fl) (h : v.isFinite = true) :
    FiniteOnly.check v = true ∧ NonNaNOnly.check v = true ∧
    (∀ debug : Bool, FiniteOnly.assert_fires debug v = false) ∧
    (∀ debug : Bool, NonNaNOnly.assert_fires debug v = false) ∧
    (∀ C : FloatChecker, (NoisyFloat.new C v).raw = v) := by
  have hn : v.isNan = false := by cases v <;> simp_all [Fl.isFinite, Fl.isNan]
  refine ⟨h, ?_, ?_, ?_, fun C => rfl⟩
  · simp [NonNaNOnly, hn]
  · intro debug; simp [FloatChecker.assert_fires, FiniteOnly, h]
  · intro debug; simp [FloatChecker.assert_fires, NonNaNOnly, hn]

/-- Witness for C1 at the finite value 3. -/
theorem new_raw_roundtrip_witness :
    Fl.isFinite (Fl.finite 3) = true ∧
    (NoisyFloat.new FiniteOnly (Fl.finite 3)).raw = Fl.finite 3 :=
  ⟨rfl, (new_raw_roundtrip (Fl.finite 3) rfl).2.2.2.2 FiniteOnly⟩

/-- Claim C2: for every checker `C` and value `v`, each try-construction
path (`try_new`, `try_borrowed`, `try_borrowed_mut`) returns a present
wrapper holding `v` iff `C::check(v)` holds, and `None` otherwise; none
of these paths contains an assert, so none can panic. -/
theorem try_paths_present_iff_check (C : FloatChecker) (v : Fl) :
    (NoisyFloat.try_new C v = some ⟨v⟩ ↔ C.check v = true) ∧
    (NoisyFloat.try_new C v = none ↔ C.check v = false) ∧
    (NoisyFloat.try_borrowed C v = some ⟨v⟩ ↔ C.check v = true) ∧
    (NoisyFloat.try_borrowed C v = none ↔ C.check v = false) ∧
    (NoisyFloat.try_borrowed_mut C v = some ⟨v⟩ ↔ C.check v = true) ∧
    (NoisyFloat.try_borrowed_mut C v = none ↔ C.check v = false) := by
  unfold NoisyFloat.try_new NoisyFloat.try_borrowed NoisyFloat.try_borrowed_mut
  by_cases h : C.check v = true <;> simp_all

/-- Claim C3: for every conforming `FloatChecker` policy, `check(NaN)`
is false — including the two shipped policies — and under the checked
(debug) configuration the assert of `new(NaN)` fires no matter which
enforcement mode the policy uses. -/
theorem check_nan_invalid_assert_fires (C : FloatChecker) :
    C.check Fl.nan = false ∧
    C.assert_fires true Fl.nan = true ∧
    FiniteOnly.check Fl.nan = false ∧
    NonNaNOnly.check Fl.nan = false := by
  refine ⟨C.nan_invalid, ?_, rfl, rfl⟩
  simp [FloatChecker.assert_fires, C.nan_invalid]

/-- Claim C4: every arithmetic operator on wrappers computes the native
float operation on the unwrapped values and re-wraps the result through
the enforcing constructor `new`; the compound form stores the same
result; concretely `new(1.0) + new(2.0) = new(3.0)`,
`new(18.0) % new(5.0) = new(3.0)` and its negation is `new(-3.0)`, and a
NaN result (`0.0 / 0.0`) fires the debug-mode assert. -/
theorem arith_ops_delegate_and_reenforce :
    (∀ (C : FloatChecker) (a b : NoisyFloat C),
      a.add b = NoisyFloat.new C (Fl.add a.value b.value) ∧
      a.sub b = NoisyFloat.new C (Fl.sub a.value b.value) ∧
      a.mul b = NoisyFloat.new C (Fl.mul a.value b.value) ∧
      a.div b = NoisyFloat.new C (Fl.div a.value b.value) ∧
      a.rem b = NoisyFloat.new C (Fl.rem a.value b.value) ∧
      a.remAssign b = a.rem b ∧
      a.neg = NoisyFloat.new C (Fl.neg a.value)) ∧
    (NoisyFloat.new NonNaNOnly (Fl.finite 1)).add (NoisyFloat.new NonNaNOnly (Fl.finite 2))
      = NoisyFloat.new NonNaNOnly (Fl.finite 3) ∧
    (NoisyFloat.new NonNaNOnly (Fl.finite 18)).rem (NoisyFloat.new NonNaNOnly (Fl.finite 5))
      = NoisyFloat.new NonNaNOnly (Fl.finite 3) ∧
    ((NoisyFloat.new NonNaNOnly (Fl.finite 18)).remAssign
        (NoisyFloat.new NonNaNOnly (Fl.finite 5))).neg
      = NoisyFloat.new NonNaNOnly (Fl.finite (-3)) ∧
    (NoisyFloat.new NonNaNOnly (Fl.finite 1)).div (NoisyFloat.new NonNaNOnly Fl.posInf)
      = NoisyFloat.new NonNaNOnly (Fl.finite 0) ∧
    NonNaNOnly.assert_fires true (Fl.div (Fl.finite 0) (Fl.finite 0)) = true := by
  have htr : Fl.qtrunc ((18 : ℚ) / 5) = 3 := by
    have h3 : ⌊(18 : ℚ) / 5⌋ = 3 := by
      rw [Int.floor_eq_iff]
      norm_num
    norm_num [Fl.qtrunc, h3]
  have hrem : Fl.rem (Fl.finite 18) (Fl.finite 5) = Fl.finite 3 := by
    simp [Fl.rem, Fl.toQ, htr]
    norm_num
  refine ⟨fun C a b => ⟨rfl, rfl, rfl, rfl, rfl, rfl, rfl⟩, ?_, ?_, ?_, ?_, ?_⟩
  · show (⟨Fl.add (Fl.finite 1) (Fl.finite 2)⟩ : NoisyFloat NonNaNOnly) = ⟨Fl.finite 3⟩
    norm_num [Fl.add, Fl.toQ]
  · show (⟨Fl.rem (Fl.finite 18) (Fl.finite 5)⟩ : NoisyFloat NonNaNOnly) = ⟨Fl.finite 3⟩
    rw [hrem]
  · show (⟨Fl.neg (Fl.rem (Fl.finite 18) (Fl.finite 5))⟩ : NoisyFloat NonNaNOnly)
      = ⟨Fl.finite (-3)⟩
    rw [hrem]
    norm_num [Fl.neg]
  · show (⟨Fl.div (Fl.finite 1) Fl.posInf⟩ : NoisyFloat NonNaNOnly) = ⟨Fl.finite 0⟩
    norm_num [Fl.div, Fl.signBit]
  · norm_num [FloatChecker.assert_fires, Fl.div, Fl.toQ, NonNaNOnly, Fl.isNan]

/-- Claim C7: serialization encodes exactly the raw contained value and
nothing else; deserialization reads a raw value and passes it through the
enforced constructor `new`; hence encode-then-decode of any wrapper gives
back an equal wrapper, and a decoded NaN triggers the same enforcement as
any other construction. -/
theorem serde_raw_roundtrip_enforced (C : FloatChecker) (a : NoisyFloat C) (v : Fl) :
    a.serialize = a.raw ∧
    NoisyFloat.deserialize C v = NoisyFloat.new C v ∧
    NoisyFloat.deserialize C a.serialize = a ∧
    C.assert_fires true Fl.nan = true := by
  refine ⟨rfl, rfl, rfl, ?_⟩
  simp [FloatChecker.assert_fires, C.nan_invalid]

/-- Claim C5: on valid (checker-accepted) wrapper values the ordering is
total, reflexive, transitive and antisymmetric up to wrapper equality,
and coincides with native float ordering on the contained values; the
explicit `min`/`max` methods delegate to this order (`Ord::min` returns
the first argument on ties, `Ord::max` the second), return one of their
arguments, and are correct lower/upper bounds in every case. -/
theorem total_order_min_max (C : FloatChecker) (a b : NoisyFloat C)
    (ha : C.check a.value = true) (hb : C.check b.value = true) :
    (a.le b = true ∨ b.le a = true) ∧
    (a.le a = true) ∧
    (∀ d e f : NoisyFloat C, d.le e = true → e.le f = true → d.le f = true) ∧
    (a.le b = true → b.le a = true → a.eq b = true) ∧
    (a.le b = Fl.fle a.value b.value) ∧
    (a.min b = if a.le b = true then a else b) ∧
    (a.max b = if a.le b = true then b else a) ∧
    ((a.min b).le a = true ∧ (a.min b).le b = true ∧ (a.min b = a ∨ a.min b = b)) ∧
    (a.le (a.max b) = true ∧ b.le (a.max b) = true ∧ (a.max b = a ∨ a.max b = b)) ∧
    (a.eq b = true → a.min b = a ∧ a.max b = b) := by
  have hna : a.value.isNan = false := C.check_not_nan ha
  have hnb : b.value.isNan = false := C.check_not_nan hb
  have htot : Fl.fle a.value b.value = true ∨ Fl.fle b.value a.value = true :=
    Fl.fle_total _ _ hna hnb
  refine ⟨htot, Fl.fle_refl _ hna,
    fun d e f h1 h2 => Fl.fle_trans _ _ _ h1 h2,
    fun h1 h2 => Fl.fle_antisymm _ _ h1 h2,
    rfl, rfl, rfl, ?_, ?_, ?_⟩
  · by_cases h : Fl.fle a.value b.value = true
    · simp only [NoisyFloat.min, if_pos h]
      exact ⟨Fl.fle_refl _ hna, h, Or.inl trivial⟩
    · have hba : Fl.fle b.value a.value = true := htot.resolve_left h
      simp only [NoisyFloat.min, if_neg h]
      exact ⟨hba, Fl.fle_refl _ hnb, Or.inr trivial⟩
  · by_cases h : Fl.fle a.value b.value = true
    · simp only [NoisyFloat.max, if_pos h]
      exact ⟨h, Fl.fle_refl _ hnb, Or.inr trivial⟩
    · have hba : Fl.fle b.value a.value = true := htot.resolve_left h
      simp only [NoisyFloat.max, if_neg h]
      exact ⟨Fl.fle_refl _ hna, hba, Or.inl trivial⟩
  · intro h
    have hab : Fl.fle a.value b.value = true := Fl.feq_fle _ _ h
    exact ⟨by simp only [NoisyFloat.min, if_pos hab],
      by simp only [NoisyFloat.max, if_pos hab]⟩

/-- Witness for C5 at the valid values 1.0 and 3.0 (matching the
`resolves_min_max` test). -/
theorem total_order_min_max_witness :
    FiniteOnly.check (Fl.finite 1) = true ∧
    FiniteOnly.check (Fl.finite 3) = true ∧
    ((⟨Fl.finite 1⟩ : NoisyFloat FiniteOnly).le ⟨Fl.finite 3⟩ = true ∨
      (⟨Fl.finite 3⟩ : NoisyFloat FiniteOnly).le ⟨Fl.finite 1⟩ = true) :=
  ⟨rfl, rfl, (total_order_min_max FiniteOnly ⟨Fl.finite 1⟩ ⟨Fl.finite 3⟩ rfl rfl).1⟩

/-- Claim C6: hashing is consistent with equality: any two equal valid
wrapper values have identical hashed representations, achieved by
normalizing -0.0 to +0.0 before hashing the bit representation; in
particular +0.0 and -0.0 compare equal and hash identically. -/
theorem hash_consistent_with_equality :
    (∀ (C : FloatChecker) (a b : NoisyFloat C), a.eq b = true → a.hashRepr = b.hashRepr) ∧
    (NoisyFloat.new FiniteOnly (Fl.finite 0)).eq (NoisyFloat.new FiniteOnly Fl.negZero) = true ∧
    (NoisyFloat.new FiniteOnly (Fl.finite 0)).hashRepr
      = (NoisyFloat.new FiniteOnly Fl.negZero).hashRepr := by
  refine ⟨?_, by simp [NoisyFloat.eq, NoisyFloat.new, Fl.feq], rfl⟩
  intro C a b h
  obtain ⟨va⟩ := a
  obtain ⟨vb⟩ := b
  simp only [NoisyFloat.eq] at h
  simp only [NoisyFloat.hashRepr]
  cases va <;> cases vb <;> simp_all [Fl.feq, NoisyFloat.normZero]

/-- Witness for C6: -0.0 equals +0.0 and their hashed representations
agree. -/
theorem hash_consistent_with_equality_witness :
    (NoisyFloat.new FiniteOnly Fl.negZero).eq (NoisyFloat.new FiniteOnly (Fl.finite 0)) = true ∧
    (NoisyFloat.new FiniteOnly Fl.negZero).hashRepr
      = (NoisyFloat.new FiniteOnly (Fl.finite 0)).hashRepr :=
  ⟨by simp [NoisyFloat.eq, NoisyFloat.new, Fl.feq],
   hash_consistent_with_equality.1 FiniteOnly _ _
     (by simp [NoisyFloat.eq, NoisyFloat.new, Fl.feq])⟩

/-- Native negation of the finite zero is -0.0. -/
theorem Fl.neg_finite_zero : Fl.neg (Fl.finite 0) = Fl.negZero := by
  simp [Fl.neg]

/-- Native negation of a nonzero finite value is exact. -/
theorem Fl.neg_finite (a : ℚ) (h : a ≠ 0) : Fl.neg (Fl.finite a) = Fl.finite (-a) := by
  simp [Fl.neg, h]

/-- Native addition of finite values is exact rational addition. -/
theorem Fl.add_finite (a b : ℚ) : Fl.add (Fl.finite a) (Fl.finite b) = Fl.finite (a + b) :=
  rfl

/-- Native subtraction of finite values is exact rational subtraction. -/
theorem Fl.sub_finite (a b : ℚ) : Fl.sub (Fl.finite a) (Fl.finite b) = Fl.finite (a - b) := by
  unfold Fl.sub
  by_cases hb : b = 0
  · subst hb
    rw [Fl.neg_finite_zero]
    show Fl.finite (a + 0) = Fl.finite (a - 0)
    norm_num
  · rw [Fl.neg_finite b hb, Fl.add_finite, ← sub_eq_add_neg]

/-- Native multiplication of nonnegative finite values is exact rational
multiplication (the result zero, if any, is +0.0). -/
theorem Fl.mul_finite_nonneg (a b : ℚ) (ha : 0 ≤ a) (hb : 0 ≤ b) :
    Fl.mul (Fl.finite a) (Fl.finite b) = Fl.finite (a * b) := by
  have ha' : ¬a < 0 := not_lt.2 ha
  have hb' : ¬b < 0 := not_lt.2 hb
  by_cases h : a * b = 0
  · simp [Fl.mul, Fl.toQ, Fl.signBit, h, ha', hb']
  · simp [Fl.mul, Fl.toQ, Fl.signBit, h]

/-- The modelled native uniform sampler over finite bounds `ql <= qh`
returns exactly `ql + (qh - ql) * u` for a nonnegative unit choice. -/
theorem UniformFloat.sample_finite (ql qh u : ℚ) (hle : ql ≤ qh) (h0 : 0 ≤ u) :
    (UniformFloat.new (Fl.finite ql) (Fl.finite qh)).sample u
      = Fl.finite (ql + (qh - ql) * u) := by
  simp only [UniformFloat.sample, UniformFloat.new]
  rw [Fl.sub_finite, Fl.mul_finite_nonneg _ _ (sub_nonneg.2 hle) h0, Fl.add_finite]

/-- Claim C8: for finite valid bounds `lo <= hi` and any unit choice in
`[0, 1)`, both sampler adapters produce the same wrapper, whose value is
`lo + (hi - lo) * u`, lies in the closed interval `[lo, hi]` under native
ordering, and is valid under both shipped policies — even though the
sample is wrapped directly without re-validation. -/
theorem uniform_sample_in_range_valid (C : FloatChecker) (lo hi : NoisyFloat C)
    (ql qh u : ℚ) (hlo : lo.value = Fl.finite ql) (hhi : hi.value = Fl.finite qh)
    (hle : ql ≤ qh) (h0 : 0 ≤ u) (h1 : u < 1) :
    ((UniformMyF32.new lo hi).sample u).value = Fl.finite (ql + (qh - ql) * u) ∧
    ((UniformMyF64.new lo hi).sample u).value = ((UniformMyF32.new lo hi).sample u).value ∧
    Fl.fle lo.value ((UniformMyF32.new lo hi).sample u).value = true ∧
    Fl.fle ((UniformMyF32.new lo hi).sample u).value hi.value = true ∧
    FiniteOnly.check ((UniformMyF32.new lo hi).sample u).value = true ∧
    NonNaNOnly.check ((UniformMyF32.new lo hi).sample u).value = true := by
  have hs : ((UniformMyF32.new lo hi).sample u).value = Fl.finite (ql + (qh - ql) * u) := by
    simp only [UniformMyF32.new, UniformMyF32.sample, hlo, hhi]
    exact UniformFloat.sample_finite ql qh u hle h0
  have hmn : 0 ≤ (qh - ql) * u := mul_nonneg (sub_nonneg.2 hle) h0
  have hmx : (qh - ql) * u ≤ qh - ql := mul_le_of_le_one_right (sub_nonneg.2 hle) h1.le
  refine ⟨hs, rfl, ?_, ?_, ?_, ?_⟩
  · rw [hlo, hs]
    simp only [Fl.fle, decide_eq_true_eq]
    linarith
  · rw [hhi, hs]
    simp only [Fl.fle, decide_eq_true_eq]
    linarith
  · rw [hs]
    rfl
  · rw [hs]
    rfl

/-- Witness for C8: sampling between the valid bounds 17.0 and 22.0
(matching the `test_rand_sampler` test) with unit choice 1/2. -/
theorem uniform_sample_in_range_valid_witness :
    (17 : ℚ) ≤ 22 ∧ (0 : ℚ) ≤ 1 / 2 ∧ (1 / 2 : ℚ) < 1 ∧
    ((UniformMyF32.new (⟨Fl.finite 17⟩ : NoisyFloat FiniteOnly) ⟨Fl.finite 22⟩).sample
        (1 / 2)).value = Fl.finite (17 + (22 - 17) * (1 / 2)) :=
  ⟨by norm_num, by norm_num, by norm_num,
   (uniform_sample_in_range_valid FiniteOnly ⟨Fl.finite 17⟩ ⟨Fl.finite 22⟩ 17 22 (1 / 2)
     rfl rfl (by norm_num) (by norm_num) (by norm_num)).1⟩

/-- Claim C10: for every checker, the inclusive-range sampler
constructor `new_inclusive` of both `UniformMyF32` and `UniformMyF64` is
the very same function as the half-open constructor `new`. -/
theorem new_inclusive_eq_new (C : FloatChecker) :
    @UniformMyF32.new_inclusive C = @UniformMyF32.new C ∧
    @UniformMyF64.new_inclusive C = @UniformMyF64.new C :=
  ⟨rfl, rfl⟩

end NoisyFloatSpec
